import Mathlib

/-!
# Verification of the WoodFrontIO game-session scheduler

Shallow embedding of `src/server/GameManager.ts` (the scheduler) together
with the session entity and shuffle source it depends on.  Parts of the
repository that are not present under `src/` (the `GameServer` session
entity, the `PseudoRandom` shuffle source, the `GameMapType` enumeration)
are modelled from the specification; each such definition says so in its
doc comment.
-/

namespace WoodFrontIO

/-- The map identifiers.  Modelled from the spec: the `GameMapType`
enumeration itself lives in the excluded `core/game/Game` module; the nine
identifiers are the keys of the hardcoded frequency table in
`GameManager.getNextMap`. -/
inductive GameMapType where
  | World
  | Europe
  | Mena
  | NorthAmerica
  | Oceania
  | BlackSea
  | Africa
  | Asia
  | Mars
deriving DecidableEq, Repr

/-- `Object.keys(GameMapType)` — the enumeration's keys, in declaration
order (modelled from the spec's weighting table; order is only consumed
before a shuffle, so it never affects observable behaviour). -/
def mapKeys : List GameMapType :=
  [.World, .Europe, .Mena, .NorthAmerica, .Oceania, .BlackSea, .Africa, .Asia, .Mars]

/-- The hardcoded `frequency` table of `GameManager.getNextMap`. -/
def frequency : GameMapType → Nat
  | .World => 4
  | .Europe => 4
  | .Mena => 2
  | .NorthAmerica => 2
  | .Oceania => 1
  | .BlackSea => 2
  | .Africa => 2
  | .Asia => 2
  | .Mars => 0

/-- One step of the seeded pseudo-random generator.  Modelled from the
spec: `PseudoRandom` (a seeded deterministic generator) lives in the
excluded `core/PseudoRandom` module; any deterministic state-advancing
function satisfies the spec's §4.1 contract, we use a 32-bit linear
congruential step. -/
def lcgNext (s : Nat) : Nat :=
  (s * 1664525 + 1013904223) % 4294967296

/-- Recursion core of the shuffle: each step draws one index from the
generator, extracts that element and recurses on the remainder.  The
`fuel` argument (instantiated with the list length, which bounds the
recursion depth) makes the recursion structural. -/
def shuffleGo {α : Type} : Nat → Nat → List α → List α × Nat
  | 0, s, l => (l, s)
  | _ + 1, s, [] => ([], s)
  | fuel + 1, s, a :: t =>
    let s1 := lcgNext s
    let j := s1 % (a :: t).length
    have hj : j < (a :: t).length := Nat.mod_lt _ (by simp)
    let rest := shuffleGo fuel s1 ((a :: t).eraseIdx j)
    ((a :: t)[j] :: rest.1, rest.2)

/-- `PseudoRandom.shuffleArray`, state-passing.  Modelled from the spec:
"Fisher–Yates or equivalent uniform shuffle" over the generator state. -/
def shuffleArray {α : Type} (s : Nat) (l : List α) : List α × Nat :=
  shuffleGo l.length s l

/-- `GameManager.allNonConsecutive`: a single linear scan checking that no
two adjacent entries of the list are identical (the TypeScript loop over
`i` comparing `maps[i]` with `maps[i+1]`). -/
def allNonConsecutive (maps : List GameMapType) : Bool :=
  match maps with
  | [] => true
  | [_] => true
  | a :: b :: t => decide (a ≠ b) && allNonConsecutive (b :: t)

/-- The working-list build of `GameManager.getNextMap`: for every key of the
enumeration, push it `weight` times (`while (count > 0)`), a zero weight
contributing nothing.  Parameterised by the weighting table `freq`; the
source instantiates it with the hardcoded `frequency`. -/
def buildPlaylist (freq : GameMapType → Nat) : List GameMapType :=
  mapKeys.flatMap (fun k => List.replicate (freq k) k)

/-- The `while (true) { shuffle; if nonconsecutive return }` loop of
`GameManager.getNextMap`, with an explicit fuel bound: `none` means the
loop has not exited within `fuel` iterations (the source code has no bound
of its own). -/
def rebuildLoop (fuel : Nat) (l : List GameMapType) (s : Nat) :
    Option (List GameMapType × Nat) :=
  match fuel with
  | 0 => none
  | f + 1 =>
    let sh := shuffleArray s l
    if allNonConsecutive sh.1 then some sh else rebuildLoop f sh.1 sh.2

/-- The map-playlist portion of the scheduler state: the queue
`mapsPlaylist` and the shuffle-source state. -/
structure PlaylistState where
  queue : List GameMapType
  rng : Nat
deriving DecidableEq, Repr

/-- `GameManager.getNextMap`, parameterised by the weighting table: pop the
head if the queue is non-empty, otherwise rebuild (with `fuel` bounding the
source's unbounded reshuffle loop) and pop the head of the accepted
arrangement.  `none` models the two non-returning outcomes: the reshuffle
loop not exiting within `fuel`, and `shift()` on an empty rebuilt queue. -/
def getNextMap (freq : GameMapType → Nat) (fuel : Nat) (ps : PlaylistState) :
    Option (GameMapType × PlaylistState) :=
  match ps.queue with
  | m :: rest => some (m, ⟨rest, ps.rng⟩)
  | [] =>
    match rebuildLoop fuel (buildPlaylist freq) ps.rng with
    | none => none
    | some (p, s1) =>
      match p with
      | [] => none
      | m :: rest => some (m, ⟨rest, s1⟩)

/-- `n` successive `getNextMap` calls, collecting the returned map
identifiers in order. -/
def runCycle (freq : GameMapType → Nat) (fuel : Nat) :
    Nat → PlaylistState → Option (List GameMapType × PlaylistState)
  | 0, ps => some ([], ps)
  | n + 1, ps =>
    match getNextMap freq fuel ps with
    | none => none
    | some (m, ps1) =>
      match runCycle freq fuel n ps1 with
      | none => none
      | some (ms, ps2) => some (m :: ms, ps2)

/-- The degenerate weighting table of the spec's edge case: a single map
identifier with weight greater than 1, all others zero. -/
def degenFreq : GameMapType → Nat
  | .World => 2
  | _ => 0

/-- A small weighting table with exactly two positive-weight identifiers,
used to instantiate the universally quantified playlist theorems. -/
def twoMapFreq : GameMapType → Nat
  | .World => 1
  | .Europe => 1
  | _ => 0

/-- Session identifiers: opaque strings (`GameID` in `core/Schemas`). -/
abbrev GameID := String

/-- An opaque client handle.  Modelled from the spec: the `Client` class is
in the excluded `server/Client` module; the scheduler only routes handles,
never inspects them, so an identifier-carrying record suffices. -/
structure Client where
  clientID : String
deriving DecidableEq, Repr

/-- `GamePhase` from `server/GameServer` (module not under `src/`; the
three phases are fixed by the spec's state machine and by the literals the
scheduler matches on). -/
inductive GamePhase where
  | Lobby
  | Active
  | Finished
deriving DecidableEq, Repr

/-- `GameType` from `core/game/Game` (the scheduler uses `Public` and
`Private`). -/
inductive GameType where
  | Public
  | Private
deriving DecidableEq, Repr

/-- `Difficulty` from `core/game/Game` (the scheduler only ever uses
`Medium`). -/
inductive Difficulty where
  | Easy
  | Medium
  | Hard
deriving DecidableEq, Repr

/-- `GameConfig` from `core/Schemas`: the mutable configuration record,
with exactly the fields the scheduler writes. -/
structure GameConfig where
  gameMap : GameMapType
  gameType : GameType
  difficulty : Difficulty
  disableNPCs : Bool
  infiniteGold : Bool
  infiniteTroops : Bool
  instantBuild : Bool
  bots : Nat
deriving DecidableEq, Repr

/-- `ServerConfig`: the scheduler's configuration input; the scheduler
reads only `gameCreationRate()` (a duration in the same clock units as
`Date.now()`). -/
structure ServerConfig where
  gameCreationRate : Nat
deriving DecidableEq, Repr

/-- The session entity.  Modelled from the spec (§4.3): `GameServer` lives
in the excluded `server/GameServer` module.  `phase` is the
externally-asserted phase the scheduler reads each tick; `hasStarted` is
the started-flag, distinct from the phase.  The Boolean behaviour flags
`startThrows` / `endGameThrows` model the spec's §5 allowance that
`start()` / `endGame()` delegate to the excluded simulation layer and may
throw synchronously: a flagged session's operation throws when invoked. -/
structure GameServer where
  id : GameID
  createdAt : Nat
  isPublic : Bool
  config : GameConfig
  phase : GamePhase
  hasStarted : Bool
  clients : List (Client × Nat)
  startThrows : Bool
  endGameThrows : Bool
deriving DecidableEq, Repr

/-- `GameServer.start`.  Modelled from the spec (§4.3): transitions the
phase toward Active and sets the started-flag; later calls have no further
effect on the flag. -/
def GameServer.start (g : GameServer) : GameServer :=
  { g with hasStarted := true, phase := GamePhase.Active }

/-- `GameServer.addClient`.  Modelled from the spec (§4.3): attaches the
handle (with its last-seen turn) to the roster while the session is in a
joinable phase (Lobby or Active); otherwise fails silently. -/
def GameServer.addClient (g : GameServer) (c : Client) (lastTurn : Nat) :
    GameServer :=
  if g.phase = GamePhase.Lobby ∨ g.phase = GamePhase.Active then
    { g with clients := g.clients ++ [(c, lastTurn)] }
  else g

/-- `GameServer.updateGameConfig`.  Modelled from the spec (§4.3): replaces
the mutable configuration record. -/
def GameServer.updateGameConfig (g : GameServer) (cfg : GameConfig) :
    GameServer :=
  { g with config := cfg }

/-- The scheduler state (`GameManager`'s fields): last public-lobby
creation timestamp, the map playlist queue, the live session collection,
the shuffle-source state, and the server configuration. -/
structure GameManager where
  lastNewLobby : Nat
  mapsPlaylist : List GameMapType
  games : List GameServer
  rngState : Nat
  config : ServerConfig
deriving DecidableEq, Repr

/-- A fresh `GameManager` as built by the constructor: `lastNewLobby = 0`,
empty playlist, no games, `PseudoRandom(123)`. -/
def GameManager.init (config : ServerConfig) : GameManager :=
  { lastNewLobby := 0, mapsPlaylist := [], games := [], rngState := 123,
    config := config }

/-- `GameManager.game`: lookup by identifier (`games.find`). -/
def GameManager.game (mgr : GameManager) (id : GameID) : Option GameServer :=
  mgr.games.find? (fun g => decide (g.id = id))

/-- `GameManager.gamesByPhase`: filter the live collection by phase. -/
def GameManager.gamesByPhase (mgr : GameManager) (phase : GamePhase) :
    List GameServer :=
  mgr.games.filter (fun g => decide (g.phase = phase))

/-- Apply `f` to the first element satisfying `p`, leaving the rest alone:
the pure rendering of JavaScript's "find the object, then mutate it in
place". -/
def updateFirst {α : Type} (p : α → Bool) (f : α → α) : List α → List α
  | [] => []
  | a :: t => if p a then f a :: t else a :: updateFirst p f t

/-- `GameManager.addClient`: route a join to the named session if it
exists, reporting whether routing succeeded. -/
def GameManager.addClient (mgr : GameManager) (c : Client) (gameID : GameID)
    (lastTurn : Nat) : Bool × GameManager :=
  match mgr.games.find? (fun g => decide (g.id = gameID)) with
  | some _ =>
    (true,
     { mgr with
         games := updateFirst (fun g => decide (g.id = gameID))
           (fun g => g.addClient c lastTurn) mgr.games })
  | none => (false, mgr)

/-- The two warning outcomes `GameManager.updateGameConfig` can log. -/
inductive UpdateWarn where
  | gameNotFound
  | cannotUpdatePublic
deriving DecidableEq, Repr

/-- `GameManager.updateGameConfig`: reject (warning, no exception) when the
session is absent or public; otherwise replace the session's
configuration. -/
def GameManager.updateGameConfig (mgr : GameManager) (gameID : GameID)
    (cfg : GameConfig) : GameManager × Option UpdateWarn :=
  match mgr.games.find? (fun g => decide (g.id = gameID)) with
  | none => (mgr, some UpdateWarn.gameNotFound)
  | some g =>
    if g.isPublic then (mgr, some UpdateWarn.cannotUpdatePublic)
    else
      ({ mgr with
           games := updateFirst (fun h => decide (h.id = gameID))
             (fun h => h.updateGameConfig cfg) mgr.games }, none)

/-- The ways a `tick()` invocation can fail to return normally:
`startThrew id` — a session's `start()` threw and the exception left
`tick()` (the source has no try/catch around the start sweep);
`mapGenDiverged` — the playlist rebuild loop did not exit within the fuel
bound (the source loops forever). -/
inductive TickErr where
  | startThrew (id : GameID)
  | mapGenDiverged
deriving DecidableEq, Repr

/-- Observable outcome of one `tick()`: the `Except` outcome (an `error`
means an exception propagated to the caller), the sessions on which
`start()` was invoked, the identifiers on which `endGame()` was invoked,
the identifiers whose `endGame()` threw (caught and logged), and the
public session created this tick, if any. -/
structure TickResult where
  outcome : Except TickErr GameManager
  startCalls : List GameServer
  endCalls : List GameID
  endFailures : List GameID
  created : Option GameServer
deriving Repr

/-- The public session synthesized inside `tick()`: fresh identifier,
current timestamp, visibility public, map from the playlist, fixed
defaults for the rest. -/
def newPublicGame (newID : GameID) (now : Nat) (m : GameMapType) :
    GameServer :=
  { id := newID, createdAt := now, isPublic := true,
    config := { gameMap := m, gameType := GameType.Public,
                difficulty := Difficulty.Medium, disableNPCs := false,
                infiniteGold := false, infiniteTroops := false,
                instantBuild := false, bots := 1000 },
    phase := GamePhase.Lobby, hasStarted := false, clients := [],
    startThrows := false, endGameThrows := false }

/-- The start sweep of `tick()`: sequentially, for each session that is
not started and public, invoke `start()`.  Returns the session list after
the in-place mutations, the sessions on which `start()` was invoked, and
the identifier of the session whose `start()` threw, if any (processing
stops there — the source has no try/catch here). -/
def startSweep : List GameServer →
    List GameServer × List GameServer × Option GameID
  | [] => ([], [], none)
  | g :: t =>
    if !g.hasStarted && g.isPublic then
      if g.startThrows then (g :: t, [g], some g.id)
      else
        match startSweep t with
        | (t1, calls, err) => (g.start :: t1, g :: calls, err)
    else
      match startSweep t with
      | (t1, calls, err) => (g :: t1, calls, err)

/-- The finished sweep of `tick()`: invoke `endGame()` on every session,
catching (and recording) per-session failures.  Returns the invoked
identifiers and the failed identifiers. -/
def endSweep : List GameServer → List GameID × List GameID
  | [] => ([], [])
  | g :: t =>
    match endSweep t with
    | (calls, fails) =>
      (g.id :: calls, if g.endGameThrows then g.id :: fails else fails)

/-- The tail of `tick()` after the creation step: start sweep over the
Active bucket (a thrown `start()` aborts the tick with an error), then the
finished sweep, then replace the live collection with Lobby ++ Active. -/
def tickRest (mgr : GameManager) (lobbies active finished : List GameServer)
    (created : Option GameServer) : TickResult :=
  match startSweep active with
  | (_, calls, some gid) =>
    { outcome := Except.error (TickErr.startThrew gid), startCalls := calls,
      endCalls := [], endFailures := [], created := created }
  | (active1, calls, none) =>
    match endSweep finished with
    | (ecalls, efails) =>
      { outcome := Except.ok { mgr with games := lobbies ++ active1 },
        startCalls := calls, endCalls := ecalls, endFailures := efails,
        created := created }

/-- `GameManager.tick`: bucket the live sessions by phase; if the creation
interval has elapsed, synthesize a new public session (consuming the map
playlist, whose unbounded rebuild loop is bounded by `fuel`) and update the
last-creation timestamp; start eligible active sessions; finalize finished
sessions; publish Lobby ++ Active as the new live collection.  `now` is
`Date.now()` and `newID` the identifier produced by `generateID()` (both
impure inputs passed explicitly). -/
def GameManager.tick (mgr : GameManager) (now : Nat) (newID : GameID)
    (fuel : Nat) : TickResult :=
  let lobbies := mgr.gamesByPhase GamePhase.Lobby
  let active := mgr.gamesByPhase GamePhase.Active
  let finished := mgr.gamesByPhase GamePhase.Finished
  if now > mgr.lastNewLobby + mgr.config.gameCreationRate then
    match getNextMap frequency fuel ⟨mgr.mapsPlaylist, mgr.rngState⟩ with
    | none =>
      { outcome := Except.error TickErr.mapGenDiverged, startCalls := [],
        endCalls := [], endFailures := [], created := none }
    | some (m, ps1) =>
      let ng := newPublicGame newID now m
      tickRest
        { mgr with
            lastNewLobby := now, mapsPlaylist := ps1.queue,
            rngState := ps1.rng }
        (lobbies ++ [ng]) active finished (some ng)
  else
    tickRest mgr lobbies active finished none

/-- The fixed defaults of `createPrivateGame`. -/
def cfgDefault : GameConfig :=
  { gameMap := GameMapType.World, gameType := GameType.Private,
    difficulty := Difficulty.Medium, disableNPCs := false,
    infiniteGold := false, infiniteTroops := false, instantBuild := false,
    bots := 1000 }

/-- A distinct configuration record used to exercise config updates. -/
def cfgNew : GameConfig :=
  { gameMap := GameMapType.Europe, gameType := GameType.Private,
    difficulty := Difficulty.Easy, disableNPCs := true,
    infiniteGold := false, infiniteTroops := false, instantBuild := true,
    bots := 5 }

/-- A public session sitting in the Lobby phase. -/
def gPub : GameServer :=
  { id := "pub", createdAt := 5, isPublic := true, config := cfgDefault,
    phase := GamePhase.Lobby, hasStarted := false, clients := [],
    startThrows := false, endGameThrows := false }

/-- A private session that has already reached the Finished phase. -/
def gPriv : GameServer :=
  { id := "priv", createdAt := 7, isPublic := false, config := cfgDefault,
    phase := GamePhase.Finished, hasStarted := true, clients := [],
    startThrows := false, endGameThrows := false }

/-- A scheduler holding one public and one private session. -/
def mgrEx : GameManager :=
  { lastNewLobby := 0, mapsPlaylist := [], games := [gPub, gPriv],
    rngState := 123, config := { gameCreationRate := 1000 } }

/-- A public Active session, not yet started, whose `start()` throws. -/
def gStartThrows : GameServer :=
  { id := "sa", createdAt := 3, isPublic := true, config := cfgDefault,
    phase := GamePhase.Active, hasStarted := false, clients := [],
    startThrows := true, endGameThrows := false }

/-- A scheduler about to run its start sweep over a session whose
`start()` throws (creation not due at the tick instant used below). -/
def mgrStartThrow : GameManager :=
  { lastNewLobby := 100, mapsPlaylist := [], games := [gStartThrows],
    rngState := 123, config := { gameCreationRate := 1000 } }

/-- A Finished session whose `endGame()` throws. -/
def gEndFails : GameServer :=
  { id := "f1", createdAt := 1, isPublic := true, config := cfgDefault,
    phase := GamePhase.Finished, hasStarted := true, clients := [],
    startThrows := false, endGameThrows := true }

/-- A Finished session whose `endGame()` succeeds. -/
def gEndOk : GameServer :=
  { id := "f2", createdAt := 2, isPublic := true, config := cfgDefault,
    phase := GamePhase.Finished, hasStarted := true, clients := [],
    startThrows := false, endGameThrows := false }

/-- A public Active session, not yet started, whose `start()` succeeds. -/
def gActiveOk : GameServer :=
  { id := "a1", createdAt := 4, isPublic := true, config := cfgDefault,
    phase := GamePhase.Active, hasStarted := false, clients := [],
    startThrows := false, endGameThrows := false }

/-- A scheduler with one startable Active session and two Finished
sessions, one of which fails during finalization. -/
def mgrMix : GameManager :=
  { lastNewLobby := 100, mapsPlaylist := [], games := [gActiveOk, gEndFails, gEndOk],
    rngState := 123, config := { gameCreationRate := 1000 } }

/-- An idle scheduler whose creation interval has elapsed and whose
playlist already holds a map. -/
def mgrCreate : GameManager :=
  { lastNewLobby := 0, mapsPlaylist := [GameMapType.World], games := [],
    rngState := 123, config := { gameCreationRate := 10 } }

theorem cons_getElem_eraseIdx_perm {α : Type} :
    ∀ (l : List α) (j : Nat) (hj : j < l.length),
    (l[j] :: l.eraseIdx j).Perm l := by
  intro l
  induction l with
  | nil => intro j hj; simp at hj
  | cons a t ih =>
    intro j hj
    cases j with
    | zero => simp [List.eraseIdx]
    | succ j =>
      have hjt : j < t.length := by simpa using hj
      have : ((a :: t)[j + 1] :: (a :: t).eraseIdx (j + 1)) =
          t[j] :: a :: t.eraseIdx j := by simp [List.eraseIdx]
      rw [this]
      exact (List.Perm.swap a t[j] (t.eraseIdx j)).trans
        (List.Perm.cons a (ih j hjt))

theorem shuffleGo_perm {α : Type} : ∀ (fuel s : Nat) (l : List α),
    l.length ≤ fuel → (shuffleGo fuel s l).1.Perm l := by
  intro fuel
  induction fuel with
  | zero =>
    intro s l hlen
    exact List.Perm.refl l
  | succ f ih =>
    intro s l hlen
    match l with
    | [] => exact List.Perm.refl _
    | a :: t =>
      rw [shuffleGo]
      have hj : lcgNext s % (a :: t).length < (a :: t).length :=
        Nat.mod_lt _ (by simp)
      have hlf : ((a :: t).eraseIdx (lcgNext s % (a :: t).length)).length ≤ f := by
        rw [List.length_eraseIdx]
        simp only [hj, if_pos]
        simp only [List.length_cons] at hlen ⊢
        omega
      have hrec := ih (lcgNext s)
        ((a :: t).eraseIdx (lcgNext s % (a :: t).length)) hlf
      exact (List.Perm.cons _ hrec).trans
        (cons_getElem_eraseIdx_perm (a :: t) _ hj)

theorem shuffleArray_perm {α : Type} (s : Nat) (l : List α) :
    (shuffleArray s l).1.Perm l :=
  shuffleGo_perm l.length s l (Nat.le_refl _)

theorem rebuildLoop_perm : ∀ (fuel : Nat) (l : List GameMapType) (s : Nat)
    (p : List GameMapType) (s1 : Nat),
    rebuildLoop fuel l s = some (p, s1) → p.Perm l := by
  intro fuel
  induction fuel with
  | zero => intro l s p s1 h; exact Option.noConfusion h
  | succ f ih =>
    intro l s p s1 h
    rw [rebuildLoop] at h
    by_cases hc : allNonConsecutive (shuffleArray s l).1 = true
    · rw [if_pos hc] at h
      obtain ⟨h1, _⟩ := Prod.mk.injEq .. ▸ Option.some.injEq .. ▸ h
      exact h1 ▸ shuffleArray_perm s l
    · rw [if_neg hc] at h
      exact (ih _ _ _ _ h).trans (shuffleArray_perm s l)

theorem rebuildLoop_nonconsec : ∀ (fuel : Nat) (l : List GameMapType) (s : Nat)
    (p : List GameMapType) (s1 : Nat),
    rebuildLoop fuel l s = some (p, s1) → allNonConsecutive p = true := by
  intro fuel
  induction fuel with
  | zero => intro l s p s1 h; exact Option.noConfusion h
  | succ f ih =>
    intro l s p s1 h
    rw [rebuildLoop] at h
    by_cases hc : allNonConsecutive (shuffleArray s l).1 = true
    · rw [if_pos hc] at h
      obtain ⟨h1, _⟩ := Prod.mk.injEq .. ▸ Option.some.injEq .. ▸ h
      exact h1 ▸ hc
    · rw [if_neg hc] at h
      exact ih _ _ _ _ h

theorem allNonConsecutive_eq_chain : ∀ (l : List GameMapType),
    allNonConsecutive l = true ↔ List.Chain' (fun a b => a ≠ b) l := by
  intro l
  induction l with
  | nil => simp [allNonConsecutive]
  | cons a t ih =>
    cases t with
    | nil => simp [allNonConsecutive]
    | cons b t2 =>
      rw [allNonConsecutive]
      simp only [Bool.and_eq_true, decide_eq_true_eq, List.chain'_cons, ih]

theorem count_buildPlaylist (freq : GameMapType → Nat) (m : GameMapType) :
    (buildPlaylist freq).count m = freq m := by
  cases m <;>
    simp [buildPlaylist, mapKeys, List.count_append, List.count_replicate]

theorem mem_mapKeys (m : GameMapType) : m ∈ mapKeys := by
  cases m <;> simp [mapKeys]

theorem runCycle_of_queue (freq : GameMapType → Nat) (fuel : Nat) :
    ∀ (l : List GameMapType) (s : Nat),
    runCycle freq fuel l.length ⟨l, s⟩ = some (l, ⟨[], s⟩) := by
  intro l
  induction l with
  | nil => intro s; rfl
  | cons m rest ih =>
    intro s
    simp [runCycle, getNextMap, ih]

theorem runCycle_of_rebuild (freq : GameMapType → Nat) (fuel s : Nat)
    (p : List GameMapType) (s1 : Nat)
    (hre : rebuildLoop fuel (buildPlaylist freq) s = some (p, s1)) :
    runCycle freq fuel p.length ⟨[], s⟩ = some (p, ⟨[], s1⟩) := by
  cases p with
  | nil =>
    have hb : buildPlaylist freq = [] :=
      List.Perm.eq_nil (rebuildLoop_perm fuel _ s [] s1 hre).symm
    match fuel with
    | 0 => exact Option.noConfusion hre
    | f + 1 =>
      rw [rebuildLoop, hb] at hre
      simp only [shuffleArray, shuffleGo, allNonConsecutive, List.length_nil,
        if_pos, Option.some.injEq, Prod.mk.injEq, true_and] at hre
      simp [runCycle, hre]
  | cons m rest =>
    have : runCycle freq fuel (m :: rest).length ⟨[], s⟩ =
        match getNextMap freq fuel ⟨[], s⟩ with
        | none => none
        | some (m1, ps1) =>
          match runCycle freq fuel rest.length ps1 with
          | none => none
          | some (ms, ps2) => some (m1 :: ms, ps2) := rfl
    rw [this]
    simp only [getNextMap, hre]
    rw [runCycle_of_queue]

theorem allNonConsecutive_allsame_false :
    ∀ (l : List GameMapType), l.length = 2 →
    (∀ x ∈ l, x = GameMapType.World) → allNonConsecutive l = false := by
  intro l hlen hall
  cases l with
  | nil => simp at hlen
  | cons a t =>
    cases t with
    | nil => simp at hlen
    | cons b t2 =>
      cases t2 with
      | nil =>
        rw [hall a (by simp), hall b (by simp)]
        rfl
      | cons c t3 => simp at hlen

theorem rebuildLoop_allSame_none : ∀ (fuel : Nat) (l : List GameMapType) (s : Nat),
    l.length = 2 → (∀ x ∈ l, x = GameMapType.World) →
    rebuildLoop fuel l s = none := by
  intro fuel
  induction fuel with
  | zero => intro l s _ _; rfl
  | succ f ih =>
    intro l s hlen hall
    have hperm := shuffleArray_perm s l
    have hlen2 : (shuffleArray s l).1.length = 2 := hperm.length_eq.trans hlen
    have hall2 : ∀ x ∈ (shuffleArray s l).1, x = GameMapType.World :=
      fun x hx => hall x (hperm.mem_iff.mp hx)
    have hfalse := allNonConsecutive_allsame_false _ hlen2 hall2
    rw [rebuildLoop, if_neg (by simp [hfalse])]
    exact ih _ _ hlen2 hall2

/-- C3 (code_bug evidence).  For the degenerate weighting table with a
single positive-weight identifier (World: 2), the source's
`while (true) { shuffle; check }` rebuild loop inside `getNextMap` never
exits: for every iteration bound `fuel` and every shuffle-source state,
`rebuildLoop` reports exhaustion (`none`).  The spec's required bounded
fallback does not exist in the code. -/
theorem rebuild_degenerate_table_never_terminates :
    ∀ (fuel s : Nat), rebuildLoop fuel (buildPlaylist degenFreq) s = none :=
  fun fuel s => rebuildLoop_allSame_none fuel _ s (by decide) (by decide)

/-- C4.  For every weighting table with at least two positive-weight
identifiers, whenever the rebuild loop exits (with any fuel bound,
accepting arrangement `p`), the sequence returned by repeated `nextMap()`
calls over one full refill cycle — from an empty queue until the queue is
exhausted again — is exactly `p`, and it contains no two consecutive
identical identifiers. -/
theorem cycle_nonconsecutive (freq : GameMapType → Nat) (s fuel : Nat)
    (p : List GameMapType) (s1 : Nat)
    (hpos : 2 ≤ (mapKeys.filter (fun k => decide (0 < freq k))).length)
    (hre : rebuildLoop fuel (buildPlaylist freq) s = some (p, s1)) :
    runCycle freq fuel p.length ⟨[], s⟩ = some (p, ⟨[], s1⟩) ∧
      List.Chain' (fun a b => a ≠ b) p :=
  ⟨runCycle_of_rebuild freq fuel s p s1 hre,
   (allNonConsecutive_eq_chain p).mp (rebuildLoop_nonconsec fuel _ s p s1 hre)⟩

/-- Witness for C4 at the concrete two-map table, seed 123, fuel 1. -/
theorem cycle_nonconsecutive_witness :
    runCycle twoMapFreq 1 2 ⟨[], 123⟩ =
        some ([GameMapType.World, GameMapType.Europe], ⟨[], 1868869221⟩) ∧
      List.Chain' (fun a b => a ≠ b)
        [GameMapType.World, GameMapType.Europe] :=
  cycle_nonconsecutive twoMapFreq 123 1
    [GameMapType.World, GameMapType.Europe] 1868869221
    (by decide) (by decide)

/-- C5.  For every weighting table, whenever the rebuild loop exits
(accepting arrangement `p`), the multiset of identifiers returned by
`nextMap()` over the full refill cycle equals the table: each identifier
appears exactly its weight many times, and a zero-weight identifier never
appears. -/
theorem cycle_multiset_matches_table (freq : GameMapType → Nat)
    (s fuel : Nat) (p : List GameMapType) (s1 : Nat)
    (hre : rebuildLoop fuel (buildPlaylist freq) s = some (p, s1)) :
    runCycle freq fuel p.length ⟨[], s⟩ = some (p, ⟨[], s1⟩) ∧
      ∀ m, p.count m = freq m ∧ (freq m = 0 → m ∉ p) := by
  refine ⟨runCycle_of_rebuild freq fuel s p s1 hre, fun m => ?_⟩
  have hperm := rebuildLoop_perm fuel _ s p s1 hre
  have hcount : p.count m = freq m :=
    (hperm.count_eq m).trans (count_buildPlaylist freq m)
  exact ⟨hcount, fun hz => List.count_eq_zero.mp (hcount.trans hz)⟩

/-- Witness for C5 at the concrete two-map table, seed 123, fuel 1. -/
theorem cycle_multiset_matches_table_witness :
    List.count GameMapType.World
        [GameMapType.World, GameMapType.Europe] = 1 ∧
      List.count GameMapType.Mars
        [GameMapType.World, GameMapType.Europe] = 0 ∧
      GameMapType.Mars ∉ [GameMapType.World, GameMapType.Europe] :=
  have h := cycle_multiset_matches_table twoMapFreq 123 1
    [GameMapType.World, GameMapType.Europe] 1868869221 (by decide)
  ⟨(h.2 GameMapType.World).1, (h.2 GameMapType.Mars).1,
   (h.2 GameMapType.Mars).2 rfl⟩

theorem find?_id_none {l : List GameServer} {gid : GameID}
    (h : ∀ g ∈ l, g.id ≠ gid) :
    l.find? (fun g => decide (g.id = gid)) = none := by
  rw [List.find?_eq_none]
  intro g hg
  simp [h g hg]

theorem find?_id_eq_some {l : List GameServer} {gid : GameID}
    (hnd : (l.map (fun g => g.id)).Nodup) {g : GameServer}
    (hg : g ∈ l) (hid : g.id = gid) :
    l.find? (fun h => decide (h.id = gid)) = some g := by
  induction l with
  | nil => simp at hg
  | cons a t ih =>
    simp only [List.map_cons, List.nodup_cons] at hnd
    by_cases ha : a.id = gid
    · have hae : a = g := by
        rcases List.mem_cons.mp hg with h1 | h1
        · exact h1.symm
        · exfalso
          apply hnd.1
          rw [ha, ← hid]
          exact List.mem_map_of_mem (fun x => x.id) h1
      rw [List.find?_cons_of_pos _ (by simp [ha]), hae]
    · have hgt : g ∈ t := by
        rcases List.mem_cons.mp hg with h1 | h1
        · exact absurd (h1 ▸ hid) ha
        · exact h1
      rw [List.find?_cons_of_neg _ (by simp [ha])]
      exact ih hnd.2 hgt

theorem updateFirst_eq_map {l : List GameServer} {gid : GameID}
    (hnd : (l.map (fun g => g.id)).Nodup) (f : GameServer → GameServer)
    {g : GameServer} (hg : g ∈ l) (hid : g.id = gid) :
    updateFirst (fun h => decide (h.id = gid)) f l =
      l.map (fun h => if h.id = gid then f h else h) := by
  induction l with
  | nil => simp at hg
  | cons a t ih =>
    simp only [List.map_cons, List.nodup_cons] at hnd
    by_cases ha : a.id = gid
    · rw [updateFirst, if_pos (by simp [ha]), List.map_cons, if_pos ha]
      have ht : ∀ h ∈ t, h.id ≠ gid := by
        intro h hh hcon
        exact hnd.1 (ha ▸ hcon ▸ List.mem_map_of_mem (fun x => x.id) hh)
      have : t.map (fun h => if h.id = gid then f h else h) = t := by
        rw [List.map_congr_left (g := id) (fun h hh => by simp [ht h hh]),
          List.map_id]
      rw [this]
    · have hgt : g ∈ t := by
        rcases List.mem_cons.mp hg with h1 | h1
        · exact absurd (h1 ▸ hid) ha
        · exact h1
      rw [updateFirst, if_neg (by simp [ha]), List.map_cons, if_neg ha,
        ih hnd.2 hgt]

theorem startSweep_no_throw : ∀ (l : List GameServer),
    (∀ g ∈ l, g.hasStarted = false → g.isPublic = true →
      g.startThrows = false) →
    startSweep l =
      (l.map (fun g => if !g.hasStarted && g.isPublic then g.start else g),
       l.filter (fun g => !g.hasStarted && g.isPublic), none) := by
  intro l
  induction l with
  | nil => intro _; rfl
  | cons g t ih =>
    intro h
    have ht := ih (fun g1 hg1 => h g1 (List.mem_cons_of_mem g hg1))
    by_cases he : (!g.hasStarted && g.isPublic) = true
    · have hgs : g.hasStarted = false := by
        have := (Bool.and_eq_true _ _).mp he
        simpa using this.1
      have hgp : g.isPublic = true := ((Bool.and_eq_true _ _).mp he).2
      have hnt : g.startThrows = false := h g (List.mem_cons_self g t) hgs hgp
      rw [startSweep, if_pos he, if_neg (by simp [hnt])]
      simp only [ht]
      simp [List.filter_cons, he, hgs, hgp]
    · rw [startSweep, if_neg he]
      simp only [ht]
      simp only [List.map_cons, List.filter_cons, he, Bool.false_eq_true,
        if_false, Prod.mk.injEq, List.cons.injEq]

theorem startSweep_none_eq : ∀ (l l1 calls : List GameServer),
    startSweep l = (l1, calls, none) →
    l1 = l.map (fun g => if !g.hasStarted && g.isPublic then g.start else g) ∧
      calls = l.filter (fun g => !g.hasStarted && g.isPublic) := by
  intro l
  induction l with
  | nil =>
    intro l1 calls h
    rw [startSweep] at h
    simp only [Prod.mk.injEq, and_true] at h
    rw [← h.1, ← h.2]
    exact ⟨rfl, rfl⟩
  | cons g t ih =>
    intro l1 calls h
    rw [startSweep] at h
    by_cases he : (!g.hasStarted && g.isPublic) = true
    · rw [if_pos he] at h
      by_cases hth : g.startThrows = true
      · rw [if_pos hth] at h
        simp only [Prod.mk.injEq] at h
        exact absurd h.2.2 (by simp)
      · rw [if_neg hth] at h
        rcases hss : startSweep t with ⟨t1, tc, terr⟩
        simp only [hss, Prod.mk.injEq] at h
        obtain ⟨h1, h2, h3⟩ := h
        obtain ⟨ht1, htc⟩ := ih t1 tc (by rw [hss, h3])
        have hgs : g.hasStarted = false := by
          have := (Bool.and_eq_true _ _).mp he
          simpa using this.1
        have hgp : g.isPublic = true := ((Bool.and_eq_true _ _).mp he).2
        rw [← h1, ← h2, ht1, htc]
        simp [List.filter_cons, he, hgs, hgp]
    · rw [if_neg he] at h
      rcases hss : startSweep t with ⟨t1, tc, terr⟩
      simp only [hss, Prod.mk.injEq] at h
      obtain ⟨h1, h2, h3⟩ := h
      obtain ⟨ht1, htc⟩ := ih t1 tc (by rw [hss, h3])
      rw [← h1, ← h2, ht1, htc]
      simp only [List.map_cons, List.filter_cons, he, Bool.false_eq_true,
        if_false, Prod.mk.injEq, List.cons.injEq]
      exact ⟨trivial, trivial⟩

theorem startSweep_calls_sub : ∀ (l : List GameServer) (c : GameServer),
    c ∈ (startSweep l).2.1 →
    c ∈ l ∧ c.hasStarted = false ∧ c.isPublic = true := by
  intro l
  induction l with
  | nil => intro c hc; simp [startSweep] at hc
  | cons g t ih =>
    intro c hc
    rw [startSweep] at hc
    by_cases he : (!g.hasStarted && g.isPublic) = true
    · have hgs : g.hasStarted = false := by
        have := (Bool.and_eq_true _ _).mp he
        simpa using this.1
      have hgp : g.isPublic = true := ((Bool.and_eq_true _ _).mp he).2
      rw [if_pos he] at hc
      by_cases hth : g.startThrows = true
      · rw [if_pos hth] at hc
        simp only [List.mem_singleton] at hc
        exact ⟨hc ▸ List.mem_cons_self g t, hc ▸ hgs, hc ▸ hgp⟩
      · rw [if_neg hth] at hc
        rcases hss : startSweep t with ⟨t1, tc, terr⟩
        simp only [hss, List.mem_cons] at hc
        rcases hc with hc | hc
        · exact ⟨hc ▸ List.mem_cons_self g t, hc ▸ hgs, hc ▸ hgp⟩
        · obtain ⟨h1, h2, h3⟩ := ih c (by rw [hss]; exact hc)
          exact ⟨List.mem_cons_of_mem g h1, h2, h3⟩
    · rw [if_neg he] at hc
      rcases hss : startSweep t with ⟨t1, tc, terr⟩
      simp only [hss] at hc
      obtain ⟨h1, h2, h3⟩ := ih c (by rw [hss]; exact hc)
      exact ⟨List.mem_cons_of_mem g h1, h2, h3⟩

theorem endSweep_eq : ∀ (l : List GameServer),
    endSweep l = (l.map (fun g => g.id),
      (l.filter (fun g => g.endGameThrows)).map (fun g => g.id)) := by
  intro l
  induction l with
  | nil => rfl
  | cons g t ih =>
    rw [endSweep, ih]
    by_cases hth : g.endGameThrows = true
    · simp [List.filter_cons, hth]
    · simp [List.filter_cons, hth]

theorem tickRest_created (mgr : GameManager)
    (lobbies active finished : List GameServer)
    (created : Option GameServer) :
    (tickRest mgr lobbies active finished created).created = created := by
  rw [tickRest]
  rcases hss : startSweep active with ⟨t1, calls, err⟩
  cases err with
  | none =>
    rcases hes : endSweep finished with ⟨ec, ef⟩
    rfl
  | some gid => rfl

theorem tickRest_ok (mgr : GameManager)
    (lobbies active finished : List GameServer)
    (created : Option GameServer) (mgr1 : GameManager)
    (hok : (tickRest mgr lobbies active finished created).outcome =
      Except.ok mgr1) :
    ∃ active1 calls, startSweep active = (active1, calls, none) ∧
      mgr1 = { mgr with games := lobbies ++ active1 } := by
  rw [tickRest] at hok
  rcases hss : startSweep active with ⟨t1, calls, err⟩
  rw [hss] at hok
  cases err with
  | none =>
    rcases hes : endSweep finished with ⟨ec, ef⟩
    rw [hes] at hok
    simp only [Except.ok.injEq] at hok
    exact ⟨t1, calls, rfl, hok.symm⟩
  | some gid => simp at hok

theorem tickRest_clean (mgr : GameManager)
    (lobbies active finished : List GameServer)
    (created : Option GameServer)
    (hstart : ∀ g ∈ active, g.hasStarted = false → g.isPublic = true →
      g.startThrows = false) :
    tickRest mgr lobbies active finished created =
      { outcome := Except.ok
          { mgr with
              games := lobbies ++ active.map
                (fun g => if !g.hasStarted && g.isPublic then g.start else g) },
        startCalls := active.filter (fun g => !g.hasStarted && g.isPublic),
        endCalls := finished.map (fun g => g.id),
        endFailures := (finished.filter (fun g => g.endGameThrows)).map
          (fun g => g.id),
        created := created } := by
  rw [tickRest, startSweep_no_throw active hstart, endSweep_eq]

theorem tick_eq_notdue (mgr : GameManager) (now : Nat) (newID : GameID)
    (fuel : Nat)
    (hnow : ¬ now > mgr.lastNewLobby + mgr.config.gameCreationRate) :
    mgr.tick now newID fuel =
      tickRest mgr (mgr.gamesByPhase GamePhase.Lobby)
        (mgr.gamesByPhase GamePhase.Active)
        (mgr.gamesByPhase GamePhase.Finished) none := by
  rw [GameManager.tick]
  simp only [if_neg hnow]

theorem tick_eq_due (mgr : GameManager) (now : Nat) (newID : GameID)
    (fuel : Nat) (m : GameMapType) (ps1 : PlaylistState)
    (hnow : now > mgr.lastNewLobby + mgr.config.gameCreationRate)
    (hm : getNextMap frequency fuel ⟨mgr.mapsPlaylist, mgr.rngState⟩ =
      some (m, ps1)) :
    mgr.tick now newID fuel =
      tickRest
        { mgr with
            lastNewLobby := now, mapsPlaylist := ps1.queue,
            rngState := ps1.rng }
        (mgr.gamesByPhase GamePhase.Lobby ++ [newPublicGame newID now m])
        (mgr.gamesByPhase GamePhase.Active)
        (mgr.gamesByPhase GamePhase.Finished)
        (some (newPublicGame newID now m)) := by
  rw [GameManager.tick]
  simp only [if_pos hnow, hm]

theorem tick_created_none_of_notdue (mgr : GameManager) (now : Nat)
    (newID : GameID) (fuel : Nat)
    (hnow : ¬ now > mgr.lastNewLobby + mgr.config.gameCreationRate) :
    (mgr.tick now newID fuel).created = none := by
  rw [tick_eq_notdue mgr now newID fuel hnow, tickRest_created]

theorem ids_inj {l : List GameServer}
    (hnd : (l.map (fun g => g.id)).Nodup) :
    ∀ g1 ∈ l, ∀ g2 ∈ l, g1.id = g2.id → g1 = g2 :=
  fun g1 h1 g2 h2 heq => List.inj_on_of_nodup_map hnd h1 h2 heq

theorem gamesByPhase_ids_ne (mgr : GameManager)
    (hnd : (mgr.games.map (fun g => g.id)).Nodup)
    {ph1 ph2 : GamePhase} (hne : ph1 ≠ ph2) :
    ∀ g1 ∈ mgr.gamesByPhase ph1, ∀ g2 ∈ mgr.gamesByPhase ph2,
      g1.id ≠ g2.id := by
  intro g1 h1 g2 h2 heq
  rw [GameManager.gamesByPhase, List.mem_filter] at h1 h2
  have he := ids_inj hnd g1 h1.1 g2 h2.1 heq
  rw [decide_eq_true_eq] at h1 h2
  exact hne (h1.2 ▸ he ▸ h2.2)

theorem startIfEligible_id (g : GameServer) :
    (if !g.hasStarted && g.isPublic then g.start else g).id = g.id := by
  by_cases he : (!g.hasStarted && g.isPublic) = true
  · rw [if_pos he]; rfl
  · rw [if_neg he]

theorem bucket_sub (mgr : GameManager) (ph : GamePhase) :
    ∀ g ∈ mgr.gamesByPhase ph, g ∈ mgr.games :=
  fun _ hg => List.mem_of_mem_filter hg

theorem tickRest_startCalls (mgr : GameManager)
    (lobbies active finished : List GameServer)
    (created : Option GameServer) :
    (tickRest mgr lobbies active finished created).startCalls =
      (startSweep active).2.1 := by
  rw [tickRest]
  rcases hss : startSweep active with ⟨t1, calls, err⟩
  cases err with
  | some gid => rfl
  | none =>
    rcases hes : endSweep finished with ⟨ec, ef⟩
    rfl

theorem tickRest_endCalls_sub (mgr : GameManager)
    (lobbies active finished : List GameServer)
    (created : Option GameServer) :
    ∀ i ∈ (tickRest mgr lobbies active finished created).endCalls,
      i ∈ finished.map (fun g => g.id) := by
  intro i hi
  rw [tickRest] at hi
  rcases hss : startSweep active with ⟨t1, calls, err⟩
  rw [hss] at hi
  cases err with
  | some gid => simp at hi
  | none =>
    rcases hes : endSweep finished with ⟨ec, ef⟩
    rw [hes] at hi
    have h := endSweep_eq finished
    rw [hes] at h
    simp only [Prod.mk.injEq] at h
    rw [← h.1]
    exact hi

theorem tick_startCalls_sub (mgr : GameManager) (now : Nat) (newID : GameID)
    (fuel : Nat) :
    ∀ c ∈ (mgr.tick now newID fuel).startCalls,
      c ∈ mgr.gamesByPhase GamePhase.Active ∧
        c.hasStarted = false ∧ c.isPublic = true := by
  intro c hc
  by_cases hnow : now > mgr.lastNewLobby + mgr.config.gameCreationRate
  · rw [GameManager.tick] at hc
    simp only [if_pos hnow] at hc
    rcases hm : getNextMap frequency fuel ⟨mgr.mapsPlaylist, mgr.rngState⟩
      with _ | mps
    · rw [hm] at hc
      simp at hc
    · obtain ⟨m, ps1⟩ := mps
      rw [hm] at hc
      rw [tickRest_startCalls] at hc
      obtain ⟨h1, h2, h3⟩ := startSweep_calls_sub _ c hc
      exact ⟨h1, h2, h3⟩
  · rw [tick_eq_notdue mgr now newID fuel hnow, tickRest_startCalls] at hc
    obtain ⟨h1, h2, h3⟩ := startSweep_calls_sub _ c hc
    exact ⟨h1, h2, h3⟩

theorem tick_endCalls_sub (mgr : GameManager) (now : Nat) (newID : GameID)
    (fuel : Nat) :
    ∀ i ∈ (mgr.tick now newID fuel).endCalls,
      i ∈ mgr.games.map (fun g => g.id) := by
  intro i hi
  have hfin : ∀ j ∈ (mgr.gamesByPhase GamePhase.Finished).map (fun g => g.id),
      j ∈ mgr.games.map (fun g => g.id) := by
    intro j hj
    obtain ⟨g, hg, he⟩ := List.mem_map.mp hj
    exact he ▸ List.mem_map_of_mem _ (bucket_sub mgr _ g hg)
  by_cases hnow : now > mgr.lastNewLobby + mgr.config.gameCreationRate
  · rw [GameManager.tick] at hi
    simp only [if_pos hnow] at hi
    rcases hm : getNextMap frequency fuel ⟨mgr.mapsPlaylist, mgr.rngState⟩
      with _ | mps
    · rw [hm] at hi
      simp at hi
    · obtain ⟨m, ps1⟩ := mps
      rw [hm] at hi
      exact hfin i (tickRest_endCalls_sub _ _ _ _ _ i hi)
  · rw [tick_eq_notdue mgr now newID fuel hnow] at hi
    exact hfin i (tickRest_endCalls_sub _ _ _ _ _ i hi)

theorem nodup_ids_lobby_active (mgr : GameManager)
    (hnd : (mgr.games.map (fun g => g.id)).Nodup)
    (f : GameServer → GameServer) (hf : ∀ g, (f g).id = g.id) :
    ((mgr.gamesByPhase GamePhase.Lobby ++
        (mgr.gamesByPhase GamePhase.Active).map f).map
      (fun g => g.id)).Nodup := by
  rw [List.map_append]
  have hL : ((mgr.gamesByPhase GamePhase.Lobby).map (fun g => g.id)).Nodup :=
    List.Nodup.sublist
      (List.Sublist.map _ (List.filter_sublist mgr.games)) hnd
  have hAids : ((mgr.gamesByPhase GamePhase.Active).map f).map (fun g => g.id) =
      (mgr.gamesByPhase GamePhase.Active).map (fun g => g.id) := by
    rw [List.map_map]
    exact List.map_congr_left (fun g _ => hf g)
  have hA : (((mgr.gamesByPhase GamePhase.Active).map f).map
      (fun g => g.id)).Nodup := by
    rw [hAids]
    exact List.Nodup.sublist
      (List.Sublist.map _ (List.filter_sublist mgr.games)) hnd
  refine List.Nodup.append hL hA ?_
  intro x hx1 hx2
  rw [hAids] at hx2
  obtain ⟨g1, hg1, he1⟩ := List.mem_map.mp hx1
  obtain ⟨g2, hg2, he2⟩ := List.mem_map.mp hx2
  exact gamesByPhase_ids_ne mgr hnd (by simp) g1 hg1 g2 hg2
    (he1.trans he2.symm)

theorem nodup_ids_lobby_new_active (mgr : GameManager)
    (hnd : (mgr.games.map (fun g => g.id)).Nodup) (newID : GameID)
    (hfresh : ∀ g ∈ mgr.games, g.id ≠ newID)
    (ng : GameServer) (hng : ng.id = newID)
    (f : GameServer → GameServer) (hf : ∀ g, (f g).id = g.id) :
    (((mgr.gamesByPhase GamePhase.Lobby ++ [ng]) ++
        (mgr.gamesByPhase GamePhase.Active).map f).map
      (fun g => g.id)).Nodup := by
  rw [List.map_append, List.map_append]
  have hL : ((mgr.gamesByPhase GamePhase.Lobby).map (fun g => g.id)).Nodup :=
    List.Nodup.sublist
      (List.Sublist.map _ (List.filter_sublist mgr.games)) hnd
  have hAids : ((mgr.gamesByPhase GamePhase.Active).map f).map (fun g => g.id) =
      (mgr.gamesByPhase GamePhase.Active).map (fun g => g.id) := by
    rw [List.map_map]
    exact List.map_congr_left (fun g _ => hf g)
  have hA : (((mgr.gamesByPhase GamePhase.Active).map f).map
      (fun g => g.id)).Nodup := by
    rw [hAids]
    exact List.Nodup.sublist
      (List.Sublist.map _ (List.filter_sublist mgr.games)) hnd
  have hLn : ((mgr.gamesByPhase GamePhase.Lobby).map (fun g => g.id) ++
      [ng].map (fun g => g.id)).Nodup := by
    refine List.Nodup.append hL (by simp) ?_
    intro x hx1 hx2
    obtain ⟨g1, hg1, he1⟩ := List.mem_map.mp hx1
    simp only [List.map_cons, List.map_nil, List.mem_singleton] at hx2
    exact hfresh g1 (bucket_sub mgr _ g1 hg1)
      (he1.symm ▸ hx2.symm ▸ hng ▸ rfl)
  refine List.Nodup.append hLn hA ?_
  intro x hx1 hx2
  rw [hAids] at hx2
  obtain ⟨g2, hg2, he2⟩ := List.mem_map.mp hx2
  rcases List.mem_append.mp hx1 with hx1 | hx1
  · obtain ⟨g1, hg1, he1⟩ := List.mem_map.mp hx1
    exact gamesByPhase_ids_ne mgr hnd (by simp) g1 hg1 g2 hg2
      (he1.trans he2.symm)
  · simp only [List.map_cons, List.map_nil, List.mem_singleton] at hx1
    exact hfresh g2 (bucket_sub mgr _ g2 hg2)
      (he2.symm ▸ hx1 ▸ hng ▸ rfl)

/-- C1 is false as stated: a counterexample tick.  `mgrStartThrow`
holds one Active public unstarted session whose `start()` throws; the
`tick()` at time 50 lets that exception propagate to its caller (the
outcome is an error, i.e. the failure is not caught inside `tick()` — the
source wraps only `endGame()` in try/catch, not `start()`). -/
theorem tick_start_exception_escapes :
    (mgrStartThrow.tick 50 "n" 0).outcome =
      Except.error (TickErr.startThrew "sa") := by
  rfl

/-- C1 (amended).  If no eligible Active session's `start()` throws
(and the playlist rebuild terminates when a creation is due), `tick()`
returns normally for every behaviour of every session's `endGame()`:
failures of `endGame()` — the only per-session operation the source
guards — are contained within the tick.  Exceptions from `start()` are
NOT contained (see `tick_start_exception_escapes`). -/
theorem tick_ok_of_start_ok (mgr : GameManager) (now : Nat) (newID : GameID)
    (fuel : Nat)
    (hmap : now > mgr.lastNewLobby + mgr.config.gameCreationRate →
      ∃ m ps1, getNextMap frequency fuel ⟨mgr.mapsPlaylist, mgr.rngState⟩ =
        some (m, ps1))
    (hstart : ∀ g ∈ mgr.gamesByPhase GamePhase.Active,
      g.hasStarted = false → g.isPublic = true → g.startThrows = false) :
    ∃ mgr1, (mgr.tick now newID fuel).outcome = Except.ok mgr1 := by
  by_cases hnow : now > mgr.lastNewLobby + mgr.config.gameCreationRate
  · obtain ⟨m, ps1, hm⟩ := hmap hnow
    rw [tick_eq_due mgr now newID fuel m ps1 hnow hm,
      tickRest_clean _ _ _ _ _ hstart]
    exact ⟨_, rfl⟩
  · rw [tick_eq_notdue mgr now newID fuel hnow,
      tickRest_clean _ _ _ _ _ hstart]
    exact ⟨_, rfl⟩

/-- Witness for the amended C1: `mgrMix` finalizes a session whose
`endGame()` throws, yet its tick returns normally. -/
theorem tick_ok_of_start_ok_witness :
    ∃ mgr1, (mgrMix.tick 50 "n" 0).outcome = Except.ok mgr1 :=
  tick_ok_of_start_ok mgrMix 50 "n" 0
    (fun hc => absurd hc (by decide)) (by decide)

/-- C9.  `addClient` routes a join to the named session exactly when a
session with that identifier exists in the live collection, returning
whether routing succeeded; with an unknown identifier it returns `false`
and leaves the scheduler (and every session) untouched.  (In the
embedding the operation is a total function: it has no failure outcome at
all, matching "does not raise".) -/
theorem addClient_found_iff (mgr : GameManager) (c : Client)
    (gameID : GameID) (lastTurn : Nat) :
    ((∃ g ∈ mgr.games, g.id = gameID) →
        (mgr.addClient c gameID lastTurn).1 = true) ∧
      ((∀ g ∈ mgr.games, g.id ≠ gameID) →
        mgr.addClient c gameID lastTurn = (false, mgr)) := by
  constructor
  · rintro ⟨g, hg, hid⟩
    rcases hf : mgr.games.find? (fun h => decide (h.id = gameID)) with _ | val
    · rw [List.find?_eq_none] at hf
      exact absurd hid (by simpa using hf g hg)
    · simp [GameManager.addClient, hf]
  · intro h
    rw [GameManager.addClient, find?_id_none h]

/-- Witness for C9: joining an unknown identifier fails benignly. -/
theorem addClient_found_iff_witness :
    mgrEx.addClient { clientID := "c" } "zzz" 0 = (false, mgrEx) :=
  (addClient_found_iff mgrEx { clientID := "c" } "zzz" 0).2 (by decide)

/-- C8.  `updateGameConfig` (a total function in the embedding — no
exception outcome exists): when no session carries the identifier it
returns the scheduler unchanged with a `gameNotFound` warning; when the
named session is public it returns the scheduler unchanged (in particular
that session's configuration is untouched) with a `cannotUpdatePublic`
warning; only for an existing private session does it replace that
session's configuration, leaving every other session unchanged. -/
theorem updateGameConfig_rejects_or_updates (mgr : GameManager)
    (gameID : GameID) (cfg : GameConfig)
    (hnd : (mgr.games.map (fun g => g.id)).Nodup) :
    ((∀ g ∈ mgr.games, g.id ≠ gameID) →
        mgr.updateGameConfig gameID cfg = (mgr, some UpdateWarn.gameNotFound)) ∧
      (∀ g ∈ mgr.games, g.id = gameID → g.isPublic = true →
        mgr.updateGameConfig gameID cfg =
          (mgr, some UpdateWarn.cannotUpdatePublic)) ∧
      (∀ g ∈ mgr.games, g.id = gameID → g.isPublic = false →
        ∃ mgr1, mgr.updateGameConfig gameID cfg = (mgr1, none) ∧
          mgr1.games = mgr.games.map
            (fun h => if h.id = gameID then { h with config := cfg } else h) ∧
          mgr1.lastNewLobby = mgr.lastNewLobby ∧
          mgr1.mapsPlaylist = mgr.mapsPlaylist ∧
          mgr1.rngState = mgr.rngState ∧ mgr1.config = mgr.config) := by
  refine ⟨fun h => ?_, fun g hg hid hpub => ?_, fun g hg hid hpriv => ?_⟩
  · rw [GameManager.updateGameConfig, find?_id_none h]
  · rw [GameManager.updateGameConfig, find?_id_eq_some hnd hg hid]
    simp [hpub]
  · rw [GameManager.updateGameConfig, find?_id_eq_some hnd hg hid]
    simp only [hpriv, Bool.false_eq_true, if_false]
    exact ⟨_, rfl, updateFirst_eq_map hnd _ hg hid, rfl, rfl, rfl, rfl⟩

/-- Witness for C8: updating the public session `pub` is rejected with a
warning and the scheduler state is unchanged. -/
theorem updateGameConfig_rejects_or_updates_witness :
    mgrEx.updateGameConfig "pub" cfgNew =
      (mgrEx, some UpdateWarn.cannotUpdatePublic) :=
  (updateGameConfig_rejects_or_updates mgrEx "pub" cfgNew (by decide)).2.1
    gPub (by decide) (by decide) (by decide)

/-- C10.  For an existing private session, `updateGameConfig` applies
the new configuration record whatever the session's current phase: the
scheduler checks only existence and the public flag, so no
configuration-freeze happens at or after the Lobby phase at the scheduler
level.  (No hypothesis constrains `g.phase`.) -/
theorem updateGameConfig_private_any_phase (mgr : GameManager)
    (gameID : GameID) (cfg : GameConfig) (g : GameServer)
    (hnd : (mgr.games.map (fun h => h.id)).Nodup)
    (hg : g ∈ mgr.games) (hid : g.id = gameID) (hpriv : g.isPublic = false) :
    ∃ mgr1, mgr.updateGameConfig gameID cfg = (mgr1, none) ∧
      ∃ g1 ∈ mgr1.games, g1.id = gameID ∧ g1.config = cfg ∧
        g1.phase = g.phase ∧ g1.hasStarted = g.hasStarted := by
  rw [GameManager.updateGameConfig, find?_id_eq_some hnd hg hid]
  simp only [hpriv, Bool.false_eq_true, if_false]
  refine ⟨_, rfl, { g with config := cfg }, ?_, hid, rfl, rfl, rfl⟩
  rw [updateFirst_eq_map hnd _ hg hid]
  have := List.mem_map_of_mem
    (fun h => if h.id = gameID then { h with config := cfg } else h) hg
  simpa [hid] using this

/-- Witness for C10: the private session `priv`, already Finished, still
accepts a configuration update. -/
theorem updateGameConfig_private_any_phase_witness :
    ∃ mgr1, mgrEx.updateGameConfig "priv" cfgNew = (mgr1, none) ∧
      ∃ g1 ∈ mgr1.games, g1.id = "priv" ∧ g1.config = cfgNew ∧
        g1.phase = GamePhase.Finished ∧ g1.hasStarted = true :=
  updateGameConfig_private_any_phase mgrEx "priv" cfgNew gPriv
    (by decide) (by decide) (by decide) (by decide)


theorem absent_ids_lobby_active (mgr : GameManager)
    (hnd : (mgr.games.map (fun g => g.id)).Nodup)
    (f : GameServer → GameServer) (hf : ∀ g, (f g).id = g.id) :
    ∀ g ∈ mgr.gamesByPhase GamePhase.Finished,
      ∀ g1 ∈ mgr.gamesByPhase GamePhase.Lobby ++
          (mgr.gamesByPhase GamePhase.Active).map f, g1.id ≠ g.id := by
  intro g hg g1 hg1
  rcases List.mem_append.mp hg1 with h1 | h1
  · exact gamesByPhase_ids_ne mgr hnd (by simp) g1 h1 g hg
  · obtain ⟨g0, hg0, he0⟩ := List.mem_map.mp h1
    rw [← he0, hf g0]
    exact gamesByPhase_ids_ne mgr hnd (by simp) g0 hg0 g hg

theorem absent_ids_lobby_new_active (mgr : GameManager)
    (hnd : (mgr.games.map (fun g => g.id)).Nodup) (newID : GameID)
    (hfresh : ∀ g ∈ mgr.games, g.id ≠ newID)
    (ng : GameServer) (hng : ng.id = newID)
    (f : GameServer → GameServer) (hf : ∀ g, (f g).id = g.id) :
    ∀ g ∈ mgr.gamesByPhase GamePhase.Finished,
      ∀ g1 ∈ (mgr.gamesByPhase GamePhase.Lobby ++ [ng]) ++
          (mgr.gamesByPhase GamePhase.Active).map f, g1.id ≠ g.id := by
  intro g hg g1 hg1
  rcases List.mem_append.mp hg1 with h1 | h1
  · rcases List.mem_append.mp h1 with h2 | h2
    · exact gamesByPhase_ids_ne mgr hnd (by simp) g1 h2 g hg
    · simp only [List.mem_singleton] at h2
      subst h2
      rw [hng]
      exact fun hEq => hfresh g (bucket_sub mgr _ g hg) hEq.symm
  · obtain ⟨g0, hg0, he0⟩ := List.mem_map.mp h1
    rw [← he0, hf g0]
    exact gamesByPhase_ids_ne mgr hnd (by simp) g0 hg0 g hg

/-- C2.  Provided the tick reaches the finished sweep (creation does
not diverge and no eligible session's `start()` throws — see C1): the tick
invokes `endGame()` exactly once on each session of the Finished bucket
(in bucket order), records exactly the sessions whose `endGame()` threw as
caught-and-logged failures without aborting the sweep, returns normally,
and afterwards every session that was in the Finished bucket is absent
from the live collection — whether or not its `endGame()` succeeded — so
no later tick can invoke `endGame()` on it again. -/
theorem tick_finished_finalized_once (mgr : GameManager) (now : Nat)
    (newID : GameID) (fuel : Nat)
    (hmap : now > mgr.lastNewLobby + mgr.config.gameCreationRate →
      ∃ m ps1, getNextMap frequency fuel ⟨mgr.mapsPlaylist, mgr.rngState⟩ =
        some (m, ps1))
    (hstart : ∀ g ∈ mgr.gamesByPhase GamePhase.Active,
      g.hasStarted = false → g.isPublic = true → g.startThrows = false)
    (hnd : (mgr.games.map (fun g => g.id)).Nodup)
    (hfresh : ∀ g ∈ mgr.games, g.id ≠ newID) :
    (mgr.tick now newID fuel).endCalls =
        (mgr.gamesByPhase GamePhase.Finished).map (fun g => g.id) ∧
      (mgr.tick now newID fuel).endFailures =
        ((mgr.gamesByPhase GamePhase.Finished).filter
          (fun g => g.endGameThrows)).map (fun g => g.id) ∧
      ∃ mgr1, (mgr.tick now newID fuel).outcome = Except.ok mgr1 ∧
        (∀ g ∈ mgr.gamesByPhase GamePhase.Finished,
          ∀ g1 ∈ mgr1.games, g1.id ≠ g.id) ∧
        (∀ g ∈ mgr.gamesByPhase GamePhase.Finished,
          ∀ (now2 : Nat) (newID2 : GameID) (fuel2 : Nat),
            g.id ∉ (mgr1.tick now2 newID2 fuel2).endCalls) := by
  by_cases hnow : now > mgr.lastNewLobby + mgr.config.gameCreationRate
  · obtain ⟨m, ps1, hm⟩ := hmap hnow
    rw [tick_eq_due mgr now newID fuel m ps1 hnow hm,
      tickRest_clean _ _ _ _ _ hstart]
    have habs := absent_ids_lobby_new_active mgr hnd newID hfresh
      (newPublicGame newID now m) rfl _ startIfEligible_id
    refine ⟨rfl, rfl, _, rfl, habs, ?_⟩
    intro g hg now2 newID2 fuel2 hmem
    have hsub := tick_endCalls_sub _ now2 newID2 fuel2 g.id hmem
    obtain ⟨g1, hg1, he1⟩ := List.mem_map.mp hsub
    exact habs g hg g1 hg1 he1
  · rw [tick_eq_notdue mgr now newID fuel hnow,
      tickRest_clean _ _ _ _ _ hstart]
    have habs := absent_ids_lobby_active mgr hnd _ startIfEligible_id
    refine ⟨rfl, rfl, _, rfl, habs, ?_⟩
    intro g hg now2 newID2 fuel2 hmem
    have hsub := tick_endCalls_sub _ now2 newID2 fuel2 g.id hmem
    obtain ⟨g1, hg1, he1⟩ := List.mem_map.mp hsub
    exact habs g hg g1 hg1 he1

/-- Witness for C2: `mgrMix` holds two Finished sessions, `f1` (whose
`endGame()` throws) and `f2`; its tick invokes `endGame()` on both,
records the `f1` failure, completes normally, and drops `f1` from the
live collection. -/
theorem tick_finished_finalized_once_witness :
    (mgrMix.tick 50 "n" 0).endCalls = ["f1", "f2"] ∧
      (mgrMix.tick 50 "n" 0).endFailures = ["f1"] ∧
      ∃ mgr1, (mgrMix.tick 50 "n" 0).outcome = Except.ok mgr1 ∧
        ∀ g1 ∈ mgr1.games, g1.id ≠ "f1" := by
  have h := tick_finished_finalized_once mgrMix 50 "n" 0
    (fun hc => absurd hc (by decide)) (by decide) (by decide) (by decide)
  obtain ⟨h1, h2, mgr1, h3, h4, h5⟩ := h
  exact ⟨h1.trans (by decide), h2.trans (by decide), mgr1, h3,
    fun g1 hg1 => h4 gEndFails (by decide) g1 hg1⟩

/-- C6.  Provided the playlist can serve a map: a tick creates a new
session exactly when the elapsed time since the last public-lobby creation
exceeds the configured interval; the created session is exactly one — it
carries the freshly generated identifier, the current timestamp, public
visibility, Lobby phase, unset started-flag, the playlist-supplied map and
the fixed defaults, it is in the published collection, every other
published session's identifier comes from the previous collection, and the
last-creation timestamp becomes `now` — hence a second tick less than the
creation interval later creates nothing. -/
theorem tick_creates_iff (mgr : GameManager) (now : Nat) (newID : GameID)
    (fuel : Nat)
    (hmap : ∃ m ps1,
      getNextMap frequency fuel ⟨mgr.mapsPlaylist, mgr.rngState⟩ =
        some (m, ps1)) :
    ((mgr.tick now newID fuel).created.isSome = true ↔
        now > mgr.lastNewLobby + mgr.config.gameCreationRate) ∧
      (∀ ng, (mgr.tick now newID fuel).created = some ng →
        ng.id = newID ∧ ng.createdAt = now ∧ ng.isPublic = true ∧
        ng.phase = GamePhase.Lobby ∧ ng.hasStarted = false ∧
        ng.config.gameType = GameType.Public ∧
        ng.config.difficulty = Difficulty.Medium ∧
        ng.config.bots = 1000 ∧ ng.config.disableNPCs = false ∧
        ng.config.infiniteGold = false ∧ ng.config.infiniteTroops = false ∧
        ng.config.instantBuild = false ∧
        (∃ ps2, getNextMap frequency fuel ⟨mgr.mapsPlaylist, mgr.rngState⟩ =
          some (ng.config.gameMap, ps2)) ∧
        (∀ mgr1, (mgr.tick now newID fuel).outcome = Except.ok mgr1 →
          mgr1.lastNewLobby = now ∧ ng ∈ mgr1.games ∧
          ∀ g1 ∈ mgr1.games, g1 = ng ∨
            g1.id ∈ mgr.games.map (fun g => g.id))) ∧
      (∀ mgr1, (mgr.tick now newID fuel).outcome = Except.ok mgr1 →
        (mgr.tick now newID fuel).created.isSome = true →
        ∀ (now2 : Nat) (newID2 : GameID) (fuel2 : Nat),
          now2 < now + mgr.config.gameCreationRate →
          (mgr1.tick now2 newID2 fuel2).created = none) := by
  obtain ⟨m, ps1, hm⟩ := hmap
  by_cases hnow : now > mgr.lastNewLobby + mgr.config.gameCreationRate
  · have heq := tick_eq_due mgr now newID fuel m ps1 hnow hm
    have hcr : (mgr.tick now newID fuel).created =
        some (newPublicGame newID now m) := by
      rw [heq, tickRest_created]
    refine ⟨?_, ?_, ?_⟩
    · rw [hcr]
      simp [hnow]
    · intro ng hng
      rw [hcr] at hng
      have hng2 : newPublicGame newID now m = ng := by injection hng
      subst hng2
      refine ⟨rfl, rfl, rfl, rfl, rfl, rfl, rfl, rfl, rfl, rfl, rfl, rfl,
        ⟨ps1, hm⟩, ?_⟩
      intro mgr1 hok
      rw [heq] at hok
      obtain ⟨active1, calls, hss, hmgr1⟩ := tickRest_ok _ _ _ _ _ _ hok
      subst hmgr1
      refine ⟨rfl, ?_, ?_⟩
      · exact List.mem_append.mpr (Or.inl (List.mem_append.mpr
          (Or.inr (List.mem_singleton.mpr rfl))))
      · intro g1 hg1
        rcases List.mem_append.mp hg1 with h1 | h1
        · rcases List.mem_append.mp h1 with h2 | h2
          · exact Or.inr (List.mem_map_of_mem _ (bucket_sub mgr _ g1 h2))
          · exact Or.inl (List.mem_singleton.mp h2)
        · obtain ⟨ha1, _⟩ := startSweep_none_eq _ _ _ hss
          rw [ha1] at h1
          obtain ⟨g0, hg0, he0⟩ := List.mem_map.mp h1
          right
          rw [← he0, startIfEligible_id g0]
          exact List.mem_map_of_mem _ (bucket_sub mgr _ g0 hg0)
    · intro mgr1 hok hsome now2 newID2 fuel2 hlt
      rw [heq] at hok
      obtain ⟨active1, calls, hss, hmgr1⟩ := tickRest_ok _ _ _ _ _ _ hok
      subst hmgr1
      apply tick_created_none_of_notdue
      show ¬ now2 > now + mgr.config.gameCreationRate
      omega
  · have hnone := tick_created_none_of_notdue mgr now newID fuel hnow
    refine ⟨?_, ?_, ?_⟩
    · rw [hnone]
      simp [hnow]
    · intro ng hng
      rw [hnone] at hng
      exact absurd hng (by simp)
    · intro mgr1 hok hsome
      rw [hnone] at hsome
      simp at hsome

/-- Witness for C6: `mgrCreate` (interval elapsed, playlist non-empty)
does create a session at its tick. -/
theorem tick_creates_iff_witness :
    (mgrCreate.tick 20 "n" 1).created.isSome = true :=
  (tick_creates_iff mgrCreate 20 "n" 1
    ⟨GameMapType.World, ⟨[], 123⟩, by decide⟩).1.mpr (by decide)

/-- C7.  Provided the tick completes (creation does not diverge, no
eligible `start()` throws): `start()` is invoked on exactly the sessions
that were bucketed Active, are public and have the started-flag unset —
each once, in bucket order, and on no other session — and since `start()`
sets the started-flag, no session started by this tick is started again by
an immediately following tick. -/
theorem tick_starts_exactly_eligible (mgr : GameManager) (now : Nat)
    (newID : GameID) (fuel : Nat)
    (hmap : now > mgr.lastNewLobby + mgr.config.gameCreationRate →
      ∃ m ps1, getNextMap frequency fuel ⟨mgr.mapsPlaylist, mgr.rngState⟩ =
        some (m, ps1))
    (hstart : ∀ g ∈ mgr.gamesByPhase GamePhase.Active,
      g.hasStarted = false → g.isPublic = true → g.startThrows = false)
    (hnd : (mgr.games.map (fun g => g.id)).Nodup)
    (hfresh : ∀ g ∈ mgr.games, g.id ≠ newID) :
    (mgr.tick now newID fuel).startCalls =
        (mgr.gamesByPhase GamePhase.Active).filter
          (fun g => !g.hasStarted && g.isPublic) ∧
      ∃ mgr1, (mgr.tick now newID fuel).outcome = Except.ok mgr1 ∧
        ∀ g ∈ (mgr.tick now newID fuel).startCalls,
          ∀ (now2 : Nat) (newID2 : GameID) (fuel2 : Nat),
            ∀ c ∈ (mgr1.tick now2 newID2 fuel2).startCalls, c.id ≠ g.id := by
  by_cases hnow : now > mgr.lastNewLobby + mgr.config.gameCreationRate
  · obtain ⟨m, ps1, hm⟩ := hmap hnow
    rw [tick_eq_due mgr now newID fuel m ps1 hnow hm,
      tickRest_clean _ _ _ _ _ hstart]
    refine ⟨rfl, _, rfl, ?_⟩
    intro g hgcalls now2 newID2 fuel2 c hc2 hEq
    obtain ⟨hgA, hgE⟩ := List.mem_filter.mp hgcalls
    obtain ⟨hcA, hcns, _⟩ := tick_startCalls_sub _ now2 newID2 fuel2 c hc2
    have hcg : c ∈ _ := bucket_sub _ _ c hcA
    have hins : GameServer.start g ∈
        (mgr.gamesByPhase GamePhase.Lobby ++ [newPublicGame newID now m]) ++
          (mgr.gamesByPhase GamePhase.Active).map
            (fun g => if !g.hasStarted && g.isPublic then g.start else g) := by
      apply List.mem_append.mpr
      right
      exact List.mem_map.mpr ⟨g, hgA, by simp [hgE]⟩
    have hndup1 := nodup_ids_lobby_new_active mgr hnd newID hfresh
      (newPublicGame newID now m) rfl _ startIfEligible_id
    have hceq : c = GameServer.start g :=
      ids_inj hndup1 c hcg (GameServer.start g) hins hEq
    rw [hceq] at hcns
    exact Bool.noConfusion hcns
  · rw [tick_eq_notdue mgr now newID fuel hnow,
      tickRest_clean _ _ _ _ _ hstart]
    refine ⟨rfl, _, rfl, ?_⟩
    intro g hgcalls now2 newID2 fuel2 c hc2 hEq
    obtain ⟨hgA, hgE⟩ := List.mem_filter.mp hgcalls
    obtain ⟨hcA, hcns, _⟩ := tick_startCalls_sub _ now2 newID2 fuel2 c hc2
    have hcg : c ∈ _ := bucket_sub _ _ c hcA
    have hins : GameServer.start g ∈
        mgr.gamesByPhase GamePhase.Lobby ++
          (mgr.gamesByPhase GamePhase.Active).map
            (fun g => if !g.hasStarted && g.isPublic then g.start else g) := by
      apply List.mem_append.mpr
      right
      exact List.mem_map.mpr ⟨g, hgA, by simp [hgE]⟩
    have hndup1 := nodup_ids_lobby_active mgr hnd _ startIfEligible_id
    have hceq : c = GameServer.start g :=
      ids_inj hndup1 c hcg (GameServer.start g) hins hEq
    rw [hceq] at hcns
    exact Bool.noConfusion hcns

/-- Witness for C7: the tick of `mgrMix` invokes `start()` on exactly its
one eligible session (`a1`, Active, public, not started) and completes. -/
theorem tick_starts_exactly_eligible_witness :
    (mgrMix.tick 50 "n" 0).startCalls = [gActiveOk] ∧
      ∃ mgr1, (mgrMix.tick 50 "n" 0).outcome = Except.ok mgr1 := by
  have h := tick_starts_exactly_eligible mgrMix 50 "n" 0
    (fun hc => absurd hc (by decide)) (by decide) (by decide) (by decide)
  obtain ⟨h1, mgr1, hok, _⟩ := h
  exact ⟨h1.trans (by decide), mgr1, hok⟩


end WoodFrontIO
